import Mathlib

/-!
Verification development for the markovchain JSON storage backend
(`markovchain/storage/json.py`).

Python values are shallowly embedded as follows: a Python `str` is a
`List Char` (named `Str` below), a value that is either a string or
`None` is an `Option Str` (named `Tok`), a Python `dict` is an
association list whose operations mimic `dict` semantics (lookup by
key, in-place update preserving insertion order, append of fresh keys
at the end), and a `collections.Counter` is such an association list
with integer values.  Fallible code returns `Except PyErr`.
-/

set_option autoImplicit false

/-- Str is the embedding of a Python string. -/
abbrev Str := List Char

/-- Tok is the embedding of a Python value that is either a string or None:
a token, a state key, or a wire key. -/
abbrev Tok := Option Str

/-- PyErr enumerates the error kinds raised by the storage code, using the
names of the specification: notFound embeds KeyError on a dataset lookup,
unsupportedOperation embeds the ValueError raised by get_links,
structuralError embeds the ValueError raised by unpacking a malformed
triple, typeError and attributeError and stopIteration embed the
corresponding Python exceptions. -/
inductive PyErr where
  | notFound
  | unsupportedOperation
  | structuralError
  | parseError
  | typeError
  | attributeError
  | stopIteration
deriving DecidableEq, Repr

instance {ε α : Type} [DecidableEq ε] [DecidableEq α] : DecidableEq (Except ε α) :=
  fun a b =>
    match a, b with
    | .ok x, .ok y =>
        if h : x = y then .isTrue (by rw [h])
        else .isFalse (fun hh => h (Except.ok.inj hh))
    | .error x, .error y =>
        if h : x = y then .isTrue (by rw [h])
        else .isFalse (fun hh => h (Except.error.inj hh))
    | .ok _, .error _ => .isFalse (fun hh => Except.noConfusion hh)
    | .error _, .ok _ => .isFalse (fun hh => Except.noConfusion hh)

/-- dlookup embeds Python dict lookup `m.get(k)` on an association list. -/
def dlookup {α β : Type} [DecidableEq α] : List (α × β) → α → Option β
  | [], _ => none
  | p :: t, k => if p.1 = k then some p.2 else dlookup t k

/-- dinsert embeds Python dict assignment `m[k] = v`: an existing key keeps
its position, a fresh key is appended at the end. -/
def dinsert {α β : Type} [DecidableEq α] : List (α × β) → α → β → List (α × β)
  | [], k, v => [(k, v)]
  | p :: t, k, v => if p.1 = k then (k, v) :: t else p :: dinsert t k v

/-- Counter embeds a `collections.Counter` over tokens: a weighted multiset
of successor tokens. -/
abbrev Counter := List (Tok × Int)

/-- DsMap embeds one dataset: a dict from state key to Counter.  A state key
read back from the wire can be `none`, hence the key type Tok. -/
abbrev DsMap := List (Tok × Counter)

/-- Data embeds `nodes` or `backward`: a dict from dataset name to DsMap. -/
abbrev Data := List (Str × DsMap)

instance : DecidableEq DsMap := inferInstance

instance : DecidableEq (Str × DsMap) := inferInstance

instance : DecidableEq Data := inferInstance

instance : DecidableEq (Option Data) := inferInstance

/-- NONE_VALUE is the reserved sentinel string `"\x00\x00"` from json.py. -/
def NONE_VALUE : Str := [Char.ofNat 0, Char.ofNat 0]

/-- dehydrate_key from json.py: substitute the sentinel for the null token. -/
def dehydrate_key (key : Tok) : Str :=
  match key with
  | none => NONE_VALUE
  | some s => s

/-- hydrate_key from json.py: substitute the null token for the sentinel. -/
def hydrate_key (key : Str) : Tok :=
  if key = NONE_VALUE then none else some key

/-- NodeEnc embeds the three compact wire encodings accepted by counterify
for a per-state entry: a plain token-to-count dict, a single
`[count, token]` pair (detected because its first element is an int), and a
pair of parallel arrays `[counts, tokens]`. -/
inductive NodeEnc where
  | dict (entries : List (Str × Int))
  | pair (value : Int) (key : Str)
  | parallel (values : List Int) (keys : List Str)
deriving DecidableEq, Repr

/-- counterify from json.py: normalize any of the three wire encodings into
a Counter, hydrating each key.  The source's empty-input early return
(`if not node_list: return Counter()`) coincides with the dict branch on an
empty dict, so it needs no separate case. -/
def counterify (node_list : NodeEnc) : Counter :=
  match node_list with
  | .dict entries => entries.map (fun p => (hydrate_key p.1, p.2))
  | .pair value key => [(hydrate_key key, value)]
  | .parallel values keys => (values.zip keys).map (fun p => (hydrate_key p.2, p.1))

/-- WireData embeds a dehydrated `nodes` or `backward` mapping as found in a
persisted JSON document. -/
abbrev WireData := List (Str × List (Str × NodeEnc))

/-- hydrate_nodes from json.py.  `none` embeds Python None; the source's
falsy early return agrees with mapping over the empty dict. -/
def hydrate_nodes (nodes : Option WireData) : Option Data :=
  match nodes with
  | none => none
  | some m =>
      some (m.map (fun ds =>
        (ds.1, ds.2.map (fun e => (hydrate_key e.1, counterify e.2)))))

/-- dehydrate_nodes from json.py: per-state entries are written as plain
dicts with dehydrated keys. -/
def dehydrate_nodes (nodes : Option Data) : Option WireData :=
  match nodes with
  | none => none
  | some m =>
      some (m.map (fun ds =>
        (ds.1, ds.2.map (fun e =>
          (dehydrate_key e.1, NodeEnc.dict (e.2.map (fun p => (dehydrate_key p.1, p.2))))))))

/-- SettingsV models the settings record.  Modelled from the spec: settings
is an opaque caller-defined mapping; the storage consults only whether
backward maps are enabled (read by the JsonStorage constructor from
`settings['storage']['backward']`) and the state separator used by the base
class's `join_state`; only those two fields are represented, and a present
record embeds a truthy (non-empty) Python dict. -/
structure SettingsV where
  backwardFlag : Bool
  separator : Str
deriving DecidableEq, Repr

/-- JsonStorage embeds the JsonStorage object state: the forward data, the
optional backward data, and the settings (an absent settings dict is
`none`). -/
structure JsonStorage where
  nodes : Data
  backward : Option Data
  settings : Option SettingsV
deriving DecidableEq, Repr

/-- BwArg embeds the four shapes the `backward` constructor argument can
take in Python: None, False, True, or a data dict. -/
inductive BwArg where
  | noneArg
  | falseArg
  | trueArg
  | dataArg (d : Data)
deriving DecidableEq, Repr

/-- settingsBackwardFlag embeds the constructor's read of
`settings and settings.get('storage', {}).get('backward', False)`:
an absent settings dict is falsy, a present record carries the flag. -/
def settingsBackwardFlag (settings : Option SettingsV) : Bool :=
  match settings with
  | none => false
  | some v => v.backwardFlag

/-- mkJsonStorage embeds the JsonStorage constructor from json.py. -/
def mkJsonStorage (nodes : Option Data) (backward : BwArg)
    (settings : Option SettingsV) : JsonStorage :=
  { nodes := nodes.getD []
    backward :=
      match backward with
      | .noneArg => if settingsBackwardFlag settings then some [] else none
      | .falseArg => none
      | .trueArg => some []
      | .dataArg d => some d
    settings := settings }

/-- sepOf reads the configured state separator.  Modelled from the spec:
the separator lives with the settings read once at construction; the base
class holding it is outside json.py.  '\x00' stands in as the default when
no settings were given. -/
def sepOf (s : JsonStorage) : Str :=
  match s.settings with
  | none => [Char.ofNat 0]
  | some v => v.separator

/-- join_state embeds the base class's state encoding.  Modelled from the
spec: `encode(tokens)` joins an ordered sequence of strings with the
configured separator (Python `sep.join(tokens)`). -/
def join_state (sep : Str) : List Str → Str
  | [] => []
  | [t] => t
  | t :: ts => t ++ sep ++ join_state sep ts

/-- join_state_checked joins a sequence that may contain null tokens, as
`sep.join` would: it raises TypeError when any element is null. -/
def join_state_checked (sep : Str) (ts : List Tok) : Except PyErr Str :=
  if ts.all Option.isSome then .ok (join_state sep (ts.map (fun t => t.getD [])))
  else .error .typeError

/-- do_get_dataset from json.py with create=False: `data[key]` raises
KeyError (the spec's NotFound) when the key is absent; a None data mapping
yields None. -/
def do_get_dataset (data : Option Data) (key : Str) : Except PyErr (Option DsMap) :=
  match data with
  | none => .ok none
  | some d =>
      match dlookup d key with
      | some v => .ok (some v)
      | none => .error .notFound

/-- do_get_dataset_create from json.py with create=True: lazily allocates
an empty dataset dict; returns the updated data together with the dataset. -/
def do_get_dataset_create (data : Data) (key : Str) : Data × DsMap :=
  match dlookup data key with
  | some v => (data, v)
  | none => (dinsert data key [], [])

/-- get_dataset from json.py (create=False): pairs the forward and backward
resolutions, evaluating the forward lookup first like the Python tuple. -/
def get_dataset (s : JsonStorage) (key : Str) :
    Except PyErr (Option DsMap × Option DsMap) :=
  match do_get_dataset (some s.nodes) key with
  | .error e => .error e
  | .ok f =>
      match do_get_dataset s.backward key with
      | .error e => .error e
      | .ok b => .ok (f, b)

/-- add_link from json.py: ensure a Counter exists for the source key, then
increment the target's count. -/
def add_link (dataset : DsMap) (source : Tok) (target : Tok) (count : Int) : DsMap :=
  let ctr := (dlookup dataset source).getD []
  dinsert dataset source (dinsert ctr target ((dlookup ctr target).getD 0 + count))

/-- Triple is a well-shaped ingestion triple
(dataset name, context tokens, target token). -/
abbrev Triple := Str × List Str × Tok

/-- Item is one element of an add_links batch: either a well-shaped triple,
or a value of the wrong shape whose unpacking in the `for` header raises
(the spec's StructuralError) before any field is read. -/
inductive Item where
  | triple (t : Triple)
  | malformed
deriving DecidableEq, Repr

/-- add_links_step embeds one iteration of the add_links loop on a
well-shaped triple: resolve (creating) the dataset under the prefixed name,
add the backward link first when backward data exists and the target is
non-null (raising StopIteration on an empty context, after the datasets
were created but before any link is recorded), then add the forward link.
The second component reports the raised error, if any. -/
def add_links_step (s : JsonStorage) (pre : Str) (t : Triple) :
    JsonStorage × Option PyErr :=
  let key := pre ++ t.1
  let fr := do_get_dataset_create s.nodes key
  let br := s.backward.map (fun b => do_get_dataset_create b key)
  let s1 : JsonStorage :=
    { s with nodes := fr.1, backward := br.map (fun r => r.1) }
  match br, t.2.2 with
  | some r, some dst =>
      match t.2.1 with
      | [] => (s1, some .stopIteration)
      | h :: tl =>
          let rkey := join_state (sepOf s) (tl ++ [dst])
          let bdata := dinsert r.1 key (add_link r.2 (some rkey) (some h) 1)
          let fkey := join_state (sepOf s) t.2.1
          let fdata := dinsert fr.1 key (add_link fr.2 (some fkey) (some dst) 1)
          ({ s with nodes := fdata, backward := some bdata }, none)
  | _, _ =>
      let fkey := join_state (sepOf s) t.2.1
      let fdata := dinsert fr.1 key (add_link fr.2 (some fkey) t.2.2 1)
      ({ s1 with nodes := fdata }, none)

/-- add_links from json.py over a batch of items: iterate until the batch
is exhausted or an item raises; an ill-shaped item raises StructuralError
at the loop header, before any mutation for it. -/
def add_links (s : JsonStorage) (pre : Str) : List Item → JsonStorage × Option PyErr
  | [] => (s, none)
  | .malformed :: _ => (s, some .structuralError)
  | .triple t :: rest =>
      let r := add_links_step s pre t
      match r.2 with
      | some e => (r.1, some e)
      | none => add_links r.1 pre rest

/-- add_links_ok runs add_links on a batch of well-shaped triples and
returns the resulting storage. -/
def add_links_ok (s : JsonStorage) (pre : Str) (ts : List Triple) : JsonStorage :=
  (add_links s pre (ts.map Item.triple)).1

/-- BDeque embeds a `collections.deque` with a maxlen bound. -/
structure BDeque where
  maxlen : Nat
  data : List Tok
deriving DecidableEq, Repr

/-- dequeAppend embeds `deque.append`: push on the right, discarding from
the left when the bound is exceeded. -/
def dequeAppend (w : BDeque) (v : Tok) : BDeque :=
  let l := w.data ++ [v]
  ⟨w.maxlen, if w.maxlen < l.length then l.drop (l.length - w.maxlen) else l⟩

/-- dequeAppendLeft embeds `deque.appendleft`: push on the left, discarding
from the right when the bound is exceeded. -/
def dequeAppendLeft (w : BDeque) (v : Tok) : BDeque :=
  let l := v :: w.data
  ⟨w.maxlen, if w.maxlen < l.length then l.take w.maxlen else l⟩

/-- get_state from json.py: `deque(chain(repeat('', size), state),
maxlen=size)` keeps the last `size` elements of the padded sequence. -/
def get_state (state : List Tok) (size : Nat) : BDeque :=
  let l := List.replicate size (some ([] : Str)) ++ state
  ⟨size, l.drop (l.length - size)⟩

/-- follow_link from json.py: extract the token from the (count, token)
link pair and push it onto the window, left for backward generation and
right otherwise. -/
def follow_link (link : Int × Tok) (state : BDeque) (backward : Bool) : BDeque :=
  if backward then dequeAppendLeft state link.2 else dequeAppend state link.2

/-- lowerStr embeds `str.lower()` characterwise. -/
def lowerStr (s : Str) : Str := s.map Char.toLower

/-- leadsWith decides whether the second string starts with the first. -/
def leadsWith : Str → Str → Bool
  | [], _ => true
  | _ :: _, [] => false
  | a :: as, b :: bs => a == b && leadsWith as bs

/-- hasSub embeds the Python substring test `needle in hay`. -/
def hasSub (needle : Str) : Str → Bool
  | [] => leadsWith needle []
  | h :: hs => leadsWith needle (h :: hs) || hasSub needle hs

/-- get_states_keys walks the keys of a dataset dict in order, keeping
those that contain the lowered search string case-insensitively; a null
key raises AttributeError (`None.lower()`). -/
def get_states_keys (subl : Str) : List (Tok × Counter) → Except PyErr (List Tok)
  | [] => .ok []
  | (none, _) :: _ => .error .attributeError
  | (some k, _) :: rest =>
      match get_states_keys subl rest with
      | .error e => .error e
      | .ok r => .ok (if hasSub subl (lowerStr k) then some k :: r else r)

/-- get_states from json.py: resolve the dataset without creating it, then
filter its forward keys by case-insensitive substring. -/
def get_states (s : JsonStorage) (dataset : Str) (string : Str) :
    Except PyErr (List Tok) :=
  match get_dataset s dataset with
  | .error e => .error e
  | .ok pr =>
      match pr.1 with
      | none => .error .typeError
      | some ds => get_states_keys (lowerStr string) ds

/-- get_links from json.py: reject a backward query on a store without
backward nodes, select the forward or backward member of the dataset pair,
encode the state, and return the recorded continuations as
(count, token) pairs; a missing key is caught and yields the empty list. -/
def get_links (s : JsonStorage) (dataset : Option DsMap × Option DsMap)
    (state : List Tok) (backward : Bool) :
    Except PyErr (List (Int × Tok)) :=
  if backward ∧ s.backward = none then .error .unsupportedOperation
  else
    match join_state_checked (sepOf s) state with
    | .error e => .error e
    | .ok key =>
        match (if backward then dataset.2 else dataset.1) with
        | none => .error .typeError
        | some ds =>
            match dlookup ds (some key) with
            | none => .ok []
            | some node => .ok (node.map (fun p => (p.2, p.1)))

/-- successors embeds the spec-level query `successors(dataset, state,
backward)`.  Modelled from the spec: callers outside json.py resolve the
dataset name (without creating) and hand the pair to get_links. -/
def successors (s : JsonStorage) (dataset : Str) (state : List Tok)
    (backward : Bool) : Except PyErr (List (Int × Tok)) :=
  match get_dataset s dataset with
  | .error e => .error e
  | .ok pr => get_links s pr state backward

/-- WireDoc embeds the persisted JSON document `{settings, nodes,
backward}`; serialization of this document to JSON text and parsing it back
is the identity on these shapes and is not re-modelled. -/
structure WireDoc where
  settings : Option SettingsV
  nodes : Option WireData
  backward : Option WireData
deriving DecidableEq, Repr

/-- do_save from json.py: dehydrate both data mappings into the document. -/
def do_save (s : JsonStorage) : WireDoc :=
  { settings := s.settings
    nodes := dehydrate_nodes (some s.nodes)
    backward := dehydrate_nodes s.backward }

/-- load from json.py: hydrate `nodes` and `backward` and invoke the
constructor with the document's fields. -/
def load (doc : WireDoc) : JsonStorage :=
  let nodes := hydrate_nodes doc.nodes
  let bw := hydrate_nodes doc.backward
  mkJsonStorage nodes
    (match bw with
     | none => BwArg.noneArg
     | some d => BwArg.dataArg d)
    doc.settings

/-- dlookup after dinsert: the inserted key is found, others unchanged. -/
theorem dlookup_dinsert {α β : Type} [DecidableEq α]
    (m : List (α × β)) (k k' : α) (v : β) :
    dlookup (dinsert m k v) k' = if k = k' then some v else dlookup m k' := by
  induction m with
  | nil => simp [dinsert, dlookup]
  | cons p t ih =>
      by_cases hp : p.1 = k
      · rw [dinsert, if_pos hp]
        by_cases h : k = k'
        · simp [dlookup, h]
        · have hp' : ¬ p.1 = k' := fun hh => h (hp.symm.trans hh)
          simp [dlookup, h, hp']
      · rw [dinsert, if_neg hp]
        by_cases h : k = k'
        · subst h
          simp [dlookup, hp, ih]
        · by_cases hq : p.1 = k'
          · simp [dlookup, hq, ih, h]
          · simp [dlookup, hq, ih, h]

/-- join_state on a list with at least two elements unfolds to an append. -/
theorem join_state_cons_cons (sep : Str) (t h : Str) (tl : List Str) :
    join_state sep (t :: h :: tl) = t ++ sep ++ join_state sep (h :: tl) := rfl

/-- join_state_checked on an all-string sequence succeeds with the join. -/
theorem join_state_checked_map_some (sep : Str) (toks : List Str) :
    join_state_checked sep (toks.map some) = .ok (join_state sep toks) := by
  have hmap : (toks.map some).map (fun t => Option.getD t []) = toks := by
    induction toks with
    | nil => rfl
    | cons a l ih => simp [ih]
  have hall : (toks.map some).all Option.isSome = true := by
    induction toks with
    | nil => rfl
    | cons a l ih => simp [ih]
  simp [join_state_checked, hall, hmap]

/-- sepC is the separator of the concrete section-8 scenario, U+0001. -/
def sepC : Char := Char.ofNat 1

/-- bodyStr is the dataset name of the scenario. -/
def bodyStr : Str := ['b', 'o', 'd', 'y']

/-- theStr is the scenario token "the". -/
def theStr : Str := ['t', 'h', 'e']

/-- catStr is the scenario token "cat". -/
def catStr : Str := ['c', 'a', 't']

/-- thStr is the scenario search string "th". -/
def thStr : Str := ['t', 'h']

/-- scS is the scenario store: window size 2, separator U+0001, built from
an empty store by addLinks([("body", ["", ""], "the"),
("body", ["", "the"], "cat")]). -/
def scS : JsonStorage :=
  add_links_ok
    (mkJsonStorage none BwArg.noneArg (some { backwardFlag := false, separator := [sepC] }))
    []
    [(bodyStr, [[], []], some theStr), (bodyStr, [[], theStr], some catStr)]

/-- scDs is the forward dataset of the scenario store. -/
def scDs : DsMap :=
  [(some [sepC], [(some theStr, 1)]), (some (sepC :: theStr), [(some catStr, 1)])]

/-- PyV embeds an untyped Python value appearing in a link pair, so that
the component order of the heterogeneous Python tuple can be compared. -/
inductive PyV where
  | int (n : Int)
  | str (s : Str)
  | noneV
deriving DecidableEq, Repr

/-- linkToPy reads a link pair back as the pair of Python values it holds. -/
def linkToPy (p : Int × Tok) : PyV × PyV :=
  (PyV.int p.1, match p.2 with | some s => PyV.str s | none => PyV.noneV)

/-- C1, counterexample: in the section-8 scenario the first returned link is
the Python tuple (1, "the") — the weight sits first and the token second —
which differs from the claimed ("the", 1). -/
theorem claim_C1_counterexample :
    (successors scS bodyStr (get_state [] 2).data false).map (fun l => l.map linkToPy)
        = .ok [(PyV.int 1, PyV.str theStr)]
      ∧ (PyV.int 1, PyV.str theStr) ≠ (PyV.str theStr, PyV.int 1) := by
  exact ⟨by decide, by decide⟩

/-- C1, amended: successors returns the recorded continuations as
(weight, token) pairs — the positive count first and the token second — and
in the section-8 scenario returns [(1, "the")] and [(1, "cat")]. -/
theorem claim_C1 (s : JsonStorage) (pr : Option DsMap × Option DsMap)
    (toks : List Str) (ds : DsMap) (ctr : Counter)
    (h1 : pr.1 = some ds)
    (h2 : dlookup ds (some (join_state (sepOf s) toks)) = some ctr) :
    get_links s pr (toks.map some) false = .ok (ctr.map (fun p => (p.2, p.1)))
    ∧ successors scS bodyStr (get_state [] 2).data false = .ok [(1, some theStr)]
    ∧ successors scS bodyStr (get_state [some theStr] 2).data false
        = .ok [(1, some catStr)] := by
  refine ⟨?_, by decide, by decide⟩
  unfold get_links
  rw [join_state_checked_map_some]
  simp [h1, h2]

/-- C1, witness: the amended statement instantiated at the scenario store. -/
theorem claim_C1_witness :
    get_links scS (some scDs, none) ([[], []].map some) false
        = .ok (([(some theStr, (1 : Int))] : Counter).map (fun p => (p.2, p.1)))
    ∧ successors scS bodyStr (get_state [] 2).data false = .ok [(1, some theStr)]
    ∧ successors scS bodyStr (get_state [some theStr] 2).data false
        = .ok [(1, some catStr)] :=
  claim_C1 scS (some scDs, none) [[], []] scDs [(some theStr, 1)] (by rfl) (by decide)

/-- C5: a backward query on a store without backward support fails with
UnsupportedOperation, whatever dataset pair and state are passed. -/
theorem claim_C5 (s : JsonStorage) (pr : Option DsMap × Option DsMap)
    (state : List Tok) (h : s.backward = none) :
    get_links s pr state true = .error .unsupportedOperation := by
  unfold get_links
  simp [h]

/-- C5, witness: the statement instantiated at a fresh forward-only store. -/
theorem claim_C5_witness :
    get_links (mkJsonStorage none BwArg.noneArg none) (none, none) [] true
      = .error .unsupportedOperation :=
  claim_C5 (mkJsonStorage none BwArg.noneArg none) (none, none) [] (by rfl)

/-- C6: a state whose encoded key has no recorded continuation in the
selected map yields the empty list, not an error. -/
theorem claim_C6 (s : JsonStorage) (pr : Option DsMap × Option DsMap)
    (toks : List Str) (bwd : Bool) (ds : DsMap)
    (h1 : bwd = true → s.backward ≠ none)
    (h2 : (if bwd then pr.2 else pr.1) = some ds)
    (h3 : dlookup ds (some (join_state (sepOf s) toks)) = none) :
    get_links s pr (toks.map some) bwd = .ok [] := by
  unfold get_links
  rw [join_state_checked_map_some]
  cases bwd with
  | false => simp at h2; simp [h2, h3]
  | true =>
      have hb := h1 rfl
      simp at h2
      simp [hb, h2, h3]

/-- C6, witness: the statement instantiated at a store with an empty
forward dataset. -/
theorem claim_C6_witness :
    get_links (mkJsonStorage none BwArg.noneArg none) (some [], none)
        (([] : List Str).map some) false = .ok [] :=
  claim_C6 (mkJsonStorage none BwArg.noneArg none) (some [], none) [] false []
    (by decide) (by rfl) (by rfl)

/-- C8: a window produced by get_state has length exactly its size, and
follow_link pushes the link's token on the right (forward) or on the left
(backward), dropping the element at the opposite end, so the length and the
bound of the window are preserved. -/
theorem claim_C8 (st : List Tok) (n : Nat) (lk : Int × Tok) :
    (get_state st n).data.length = n
    ∧ (follow_link lk (get_state st n) false).data
        = ((get_state st n).data ++ [lk.2]).drop 1
    ∧ (follow_link lk (get_state st n) true).data
        = (lk.2 :: (get_state st n).data).take n
    ∧ (follow_link lk (get_state st n) false).data.length = n
    ∧ (follow_link lk (get_state st n) true).data.length = n
    ∧ (follow_link lk (get_state st n) false).maxlen = n
    ∧ (follow_link lk (get_state st n) true).maxlen = n := by
  have hlen : (get_state st n).data.length = n := by
    simp [get_state]
  have hm : (get_state st n).maxlen = n := rfl
  have hc1 : n < ((get_state st n).data ++ [lk.2]).length := by
    simp [hlen]
  have hd1 : ((get_state st n).data ++ [lk.2]).length - n = 1 := by
    simp [hlen]
  have hc2 : n < (lk.2 :: (get_state st n).data).length := by
    simp [hlen]
  have e1 : (follow_link lk (get_state st n) false).data
      = ((get_state st n).data ++ [lk.2]).drop 1 := by
    have hl : ((get_state st n).data ++ [lk.2]).length = n + 1 := by simp [hlen]
    simp [follow_link, dequeAppend, hm, hl, hlen, Nat.lt_succ_self,
      Nat.add_sub_cancel_left]
  have e2 : (follow_link lk (get_state st n) true).data
      = (lk.2 :: (get_state st n).data).take n := by
    have hl : (lk.2 :: (get_state st n).data).length = n + 1 := by simp [hlen]
    simp [follow_link, dequeAppendLeft, hm, hl, Nat.lt_succ_self]
  refine ⟨hlen, e1, e2, ?_, ?_, ?_, ?_⟩
  · rw [e1]; simp [hlen]
  · rw [e2]; simp [hlen]
  · simp [follow_link, dequeAppend, hm]
  · simp [follow_link, dequeAppendLeft, hm]

/-- C9: the three compact wire encodings of one distribution hydrate to the
same weighted multiset, and hydration replaces the sentinel by the null
token. -/
theorem claim_C9 (dist : List (Int × Str)) (v : Int) (k : Str) :
    counterify (NodeEnc.dict (dist.map (fun p => (p.2, p.1))))
        = counterify (NodeEnc.parallel (dist.map Prod.fst) (dist.map Prod.snd))
    ∧ counterify (NodeEnc.pair v k) = counterify (NodeEnc.dict [(k, v)])
    ∧ hydrate_key NONE_VALUE = none := by
  refine ⟨?_, by simp [counterify], by simp [hydrate_key]⟩
  simp [counterify, List.zip_map', List.map_map]

/-- fwdOnlyS is a store whose backward map is present but lacks the
dataset that its forward map holds. -/
def fwdOnlyS : JsonStorage :=
  { nodes := [(bodyStr, scDs)], backward := some [], settings := none }

/-- C10: with a backward map present, get_states fails with NotFound when
the dataset name is absent from the backward map, even though the dataset
exists in the forward map. -/
theorem claim_C10 (s : JsonStorage) (bd : Data) (d sub : Str) (fds : DsMap)
    (h1 : s.backward = some bd) (h2 : dlookup bd d = none)
    (h3 : dlookup s.nodes d = some fds) :
    get_states s d sub = .error .notFound := by
  unfold get_states get_dataset do_get_dataset
  simp [h1, h2, h3]

/-- C10, witness: the statement instantiated at a concrete store holding
the dataset forward only. -/
theorem claim_C10_witness : get_states fwdOnlyS bodyStr thStr = .error .notFound :=
  claim_C10 fwdOnlyS [] bodyStr thStr scDs (by rfl) (by rfl) (by decide)

/-- findStatesSpec states the spec's words for findStates: the keys of the
dataset's forward map that contain the substring case-insensitively, in
order. -/
def findStatesSpec (fds : DsMap) (sub : Str) : List Tok :=
  (fds.map Prod.fst).filter (fun k =>
    match k with
    | some ks => hasSub (lowerStr sub) (lowerStr ks)
    | none => false)

/-- get_states_keys never raises NotFound: its only error is the attribute
error on a null key. -/
theorem gsk_no_notFound (subl : Str) (l : List (Tok × Counter)) :
    get_states_keys subl l ≠ .error .notFound := by
  induction l with
  | nil => simp [get_states_keys]
  | cons e rest ih =>
      rcases e with ⟨k, c⟩
      cases k with
      | none => simp [get_states_keys]
      | some ks =>
          cases h : get_states_keys subl rest with
          | error e =>
              have he : e ≠ .notFound := fun hh => ih (hh ▸ h)
              simp [get_states_keys, h, he]
          | ok r => simp [get_states_keys, h]

/-- get_states_keys on a dataset with no null key computes the spec-side
filter. -/
theorem gsk_spec (subl : Str) (l : List (Tok × Counter))
    (h : ∀ e ∈ l, e.1 ≠ none) :
    get_states_keys subl l
      = .ok ((l.map Prod.fst).filter (fun k =>
          match k with
          | some ks => hasSub subl (lowerStr ks)
          | none => false)) := by
  induction l with
  | nil => rfl
  | cons e rest ih =>
      rcases e with ⟨k, c⟩
      cases k with
      | none => exact absurd rfl (h (none, c) (List.mem_cons_self _ _))
      | some ks =>
          have hrest : ∀ e ∈ rest, e.1 ≠ none :=
            fun e he => h e (List.mem_cons_of_mem _ he)
          by_cases hs : hasSub subl (lowerStr ks) <;>
            simp [get_states_keys, ih hrest, List.filter_cons, hs]

/-- C7, amended: get_states fails with NotFound exactly when the dataset is
absent from the forward map or absent from a present backward map; on a
dataset present everywhere required whose keys are all strings it returns
exactly the case-insensitively matching forward keys in order; and in the
section-8 scenario findStates("body", "th") returns exactly one key, equal
to encode(["", "the"]). -/
theorem claim_C7 (s : JsonStorage) (d sub : Str) (fds : DsMap) :
    (get_states s d sub = .error .notFound ↔
      dlookup s.nodes d = none ∨ ∃ b, s.backward = some b ∧ dlookup b d = none)
    ∧ (dlookup s.nodes d = some fds →
        (s.backward = none ∨ ∃ b, s.backward = some b ∧ (dlookup b d).isSome) →
        (∀ e ∈ fds, e.1 ≠ none) →
        get_states s d sub = .ok (findStatesSpec fds sub))
    ∧ get_states scS bodyStr thStr = .ok [some (join_state [sepC] [[], theStr])] := by
  refine ⟨?_, ?_, by decide⟩
  · cases hf : dlookup s.nodes d with
    | none => simp [get_states, get_dataset, do_get_dataset, hf]
    | some fds' =>
        cases hb : s.backward with
        | none =>
            simp [get_states, get_dataset, do_get_dataset, hf, hb,
              gsk_no_notFound (lowerStr sub) fds']
        | some bd =>
            cases hbd : dlookup bd d with
            | none => simp [get_states, get_dataset, do_get_dataset, hf, hb, hbd]
            | some y =>
                simp [get_states, get_dataset, do_get_dataset, hf, hb, hbd,
                  gsk_no_notFound (lowerStr sub) fds']
  · intro hf hb hk
    rcases hb with hb | ⟨b, hb, hbd⟩
    · simp [get_states, get_dataset, do_get_dataset, hf, hb,
        gsk_spec (lowerStr sub) fds hk, findStatesSpec]
    · rcases Option.isSome_iff_exists.mp hbd with ⟨y, hy⟩
      simp [get_states, get_dataset, do_get_dataset, hf, hb, hy,
        gsk_spec (lowerStr sub) fds hk, findStatesSpec]

/-- C7, counterexample: a dataset present in the forward map alone still
makes get_states fail with NotFound when a backward map exists, so
"fails iff the dataset itself does not exist" is false as stated. -/
theorem claim_C7_counterexample :
    (dlookup fwdOnlyS.nodes bodyStr).isSome = true
    ∧ get_states fwdOnlyS bodyStr thStr = .error .notFound :=
  ⟨by decide, by decide⟩

/-- C7, witness: the amended statement instantiated at the scenario store. -/
theorem claim_C7_witness :
    get_states scS bodyStr thStr = .ok (findStatesSpec scDs thStr) :=
  (claim_C7 scS bodyStr thStr scDs).2.1 (by decide) (Or.inl (by decide)) (by decide)

/-- C4: when the well-shaped head of a batch commits without error, a
malformed element that follows fails the batch with StructuralError while
leaving the store exactly as the earlier triples left it — no mutation for
the malformed element, no rollback of committed links, and the remainder of
the batch unprocessed. -/
theorem claim_C4 (s : JsonStorage) (pre : Str) (good : List Triple)
    (rest : List Item)
    (h : (add_links s pre (good.map Item.triple)).2 = none) :
    add_links s pre (good.map Item.triple ++ Item.malformed :: rest)
      = ((add_links s pre (good.map Item.triple)).1, some PyErr.structuralError) := by
  induction good generalizing s with
  | nil => simp [add_links]
  | cons t ts ih =>
      simp only [List.map_cons, List.cons_append, add_links] at h ⊢
      cases he : (add_links_step s pre t).2 with
      | some e =>
          rw [he] at h
          simp at h
      | none =>
          rw [he] at h
          dsimp only at h ⊢
          exact ih _ h

/-- C4, witness: one committed triple followed by a malformed element. -/
theorem claim_C4_witness :
    add_links (mkJsonStorage none BwArg.noneArg none) []
        ([(bodyStr, [[], []], some theStr)].map Item.triple ++ Item.malformed :: [])
      = ((add_links (mkJsonStorage none BwArg.noneArg none) []
            ([(bodyStr, [[], []], some theStr)].map Item.triple)).1,
         some PyErr.structuralError) :=
  claim_C4 (mkJsonStorage none BwArg.noneArg none) []
    [(bodyStr, [[], []], some theStr)] [] (by decide)

/-- ctrOk says no token of the counter equals the reserved sentinel. -/
abbrev ctrOk (c : Counter) : Prop := ∀ p ∈ c, p.1 ≠ some NONE_VALUE

/-- dsOk says no state key and no token of the dataset equals the sentinel. -/
abbrev dsOk (ds : DsMap) : Prop := ∀ e ∈ ds, e.1 ≠ some NONE_VALUE ∧ ctrOk e.2

/-- dataOk extends dsOk over every dataset of a data mapping. -/
abbrev dataOk (d : Data) : Prop := ∀ x ∈ d, dsOk x.2

/-- storageOk says no token and no encoded state key inside the store
equals the reserved sentinel string. -/
abbrev storageOk (s : JsonStorage) : Prop :=
  dataOk s.nodes ∧ dataOk (s.backward.getD [])

/-- hydrate_key undoes dehydrate_key away from the sentinel. -/
theorem key_round (k : Tok) (h : k ≠ some NONE_VALUE) :
    hydrate_key (dehydrate_key k) = k := by
  cases k with
  | none => simp [dehydrate_key, hydrate_key]
  | some s =>
      have hs : s ≠ NONE_VALUE := fun hh => h (by rw [hh])
      simp [dehydrate_key, hydrate_key, hs]

/-- counterify undoes the dict dehydration of a sentinel-free counter. -/
theorem ctr_round (c : Counter) (h : ctrOk c) :
    counterify (NodeEnc.dict (c.map (fun p => (dehydrate_key p.1, p.2)))) = c := by
  induction c with
  | nil => rfl
  | cons p t ih =>
      have h1 : p.1 ≠ some NONE_VALUE := h p (List.mem_cons_self _ _)
      have ht : ctrOk t := fun q hq => h q (List.mem_cons_of_mem _ hq)
      have htl := ih ht
      simp only [counterify, List.map_cons] at htl ⊢
      rw [key_round p.1 h1, htl]

/-- hydration undoes dehydration on a sentinel-free dataset. -/
theorem ds_round (ds : DsMap) (h : dsOk ds) :
    (ds.map (fun e =>
        (dehydrate_key e.1,
          NodeEnc.dict (e.2.map (fun p => (dehydrate_key p.1, p.2)))))).map
      (fun e => (hydrate_key e.1, counterify e.2)) = ds := by
  induction ds with
  | nil => rfl
  | cons e t ih =>
      have h1 := h e (List.mem_cons_self _ _)
      have ht : dsOk t := fun q hq => h q (List.mem_cons_of_mem _ hq)
      simp only [List.map_cons]
      rw [key_round e.1 h1.1, ctr_round e.2 h1.2, ih ht]

/-- hydrate_nodes undoes dehydrate_nodes on sentinel-free data. -/
theorem data_round (d : Data) (h : dataOk d) :
    hydrate_nodes (dehydrate_nodes (some d)) = some d := by
  simp only [dehydrate_nodes, hydrate_nodes, List.map_map]
  congr 1
  induction d with
  | nil => rfl
  | cons x t ih =>
      have h1 : dsOk x.2 := h x (List.mem_cons_self _ _)
      have ht : dataOk t := fun q hq => h q (List.mem_cons_of_mem _ hq)
      simp only [List.map_cons, Function.comp]
      rw [ih ht, ds_round x.2 h1]

/-- one add_links iteration never changes the settings. -/
theorem step_settings (s : JsonStorage) (pre : Str) (t : Triple) :
    (add_links_step s pre t).1.settings = s.settings := by
  rcases t with ⟨d, src, dst⟩
  unfold add_links_step
  cases hb : s.backward with
  | none => cases dst <;> simp [hb]
  | some b =>
      cases dst with
      | none => simp [hb]
      | some u =>
          cases src with
          | nil => simp [hb]
          | cons hh tl => simp [hb]

/-- one add_links iteration preserves whether backward data exists. -/
theorem step_backward_isSome (s : JsonStorage) (pre : Str) (t : Triple) :
    (add_links_step s pre t).1.backward.isSome = s.backward.isSome := by
  rcases t with ⟨d, src, dst⟩
  unfold add_links_step
  cases hb : s.backward with
  | none => cases dst <;> simp [hb]
  | some b =>
      cases dst with
      | none => simp [hb]
      | some u =>
          cases src with
          | nil => simp [hb]
          | cons hh tl => simp [hb]

/-- add_links never changes the settings. -/
theorem run_settings (pre : Str) (items : List Item) :
    ∀ s : JsonStorage, (add_links s pre items).1.settings = s.settings := by
  induction items with
  | nil => intro s; rfl
  | cons i rest ih =>
      intro s
      cases i with
      | malformed => rfl
      | triple t =>
          simp only [add_links]
          cases he : (add_links_step s pre t).2 with
          | some e => dsimp only; exact step_settings s pre t
          | none => dsimp only; rw [ih]; exact step_settings s pre t

/-- add_links preserves whether backward data exists. -/
theorem run_backward_isSome (pre : Str) (items : List Item) :
    ∀ s : JsonStorage, (add_links s pre items).1.backward.isSome = s.backward.isSome := by
  induction items with
  | nil => intro s; rfl
  | cons i rest ih =>
      intro s
      cases i with
      | malformed => rfl
      | triple t =>
          simp only [add_links]
          cases he : (add_links_step s pre t).2 with
          | some e => dsimp only; exact step_backward_isSome s pre t
          | none => dsimp only; rw [ih]; exact step_backward_isSome s pre t

/-- load undoes do_save on any sentinel-free store whose absent backward
data is consistent with its settings flag. -/
theorem load_save (S : JsonStorage) (h : storageOk S)
    (hcons : S.backward = none → settingsBackwardFlag S.settings = false) :
    load (do_save S) = S := by
  obtain ⟨n, b, st⟩ := S
  obtain ⟨hN, hB⟩ := h
  cases b with
  | none =>
      have hfl := hcons rfl
      simp only at hfl
      simp only [load, do_save]
      rw [data_round n hN]
      simp [mkJsonStorage, hydrate_nodes, dehydrate_nodes, hfl]
  | some bd =>
      have hBd : dataOk bd := hB
      simp only [load, do_save]
      rw [data_round n hN, data_round bd hBd]
      simp [mkJsonStorage]

/-- C2: a store constructed empty from its settings and mutated only by
add_links, holding no sentinel-valued token or state key, is reproduced
exactly by load after do_save: equal forward data, equal (or equally
absent) backward data, equal settings. -/
theorem claim_C2 (settings : Option SettingsV) (pre : Str) (ts : List Triple)
    (h : storageOk (add_links_ok (mkJsonStorage none BwArg.noneArg settings) pre ts)) :
    load (do_save (add_links_ok (mkJsonStorage none BwArg.noneArg settings) pre ts))
      = add_links_ok (mkJsonStorage none BwArg.noneArg settings) pre ts := by
  apply load_save _ h
  intro hnone
  have h1 : (add_links_ok (mkJsonStorage none BwArg.noneArg settings) pre ts).settings
      = settings := by
    unfold add_links_ok
    rw [run_settings]
    rfl
  have h2 : (add_links_ok (mkJsonStorage none BwArg.noneArg settings) pre ts).backward.isSome
      = settingsBackwardFlag settings := by
    unfold add_links_ok
    rw [run_backward_isSome]
    unfold mkJsonStorage
    cases hf : settingsBackwardFlag settings <;> simp [hf]
  rw [h1]
  rw [hnone] at h2
  simp only [Option.isSome_none] at h2
  exact h2.symm

/-- C2, witness: the round trip instantiated at the scenario store. -/
theorem claim_C2_witness :
    load (do_save (add_links_ok
        (mkJsonStorage none BwArg.noneArg (some ⟨false, [sepC]⟩)) []
        [(bodyStr, [[], []], some theStr), (bodyStr, [[], theStr], some catStr)]))
      = add_links_ok (mkJsonStorage none BwArg.noneArg (some ⟨false, [sepC]⟩)) []
          [(bodyStr, [[], []], some theStr), (bodyStr, [[], theStr], some catStr)] :=
  claim_C2 (some ⟨false, [sepC]⟩) []
    [(bodyStr, [[], []], some theStr), (bodyStr, [[], theStr], some catStr)]
    (by decide)

/-- dsCount reads the weight recorded in one dataset for a state key and a
token, 0 when absent (a missing key reads as the empty counter). -/
def dsCount (ds : DsMap) (k t : Tok) : Int :=
  (dlookup ((dlookup ds k).getD []) t).getD 0

/-- countIn reads the weight recorded in a data mapping for a dataset name,
a state key and a token, 0 when absent. -/
def countIn (data : Data) (d : Str) (k t : Tok) : Int :=
  dsCount ((dlookup data d).getD []) k t

/-- fwdCount reads a weight from the forward maps of a store. -/
def fwdCount (s : JsonStorage) (d : Str) (k t : Tok) : Int :=
  countIn s.nodes d k t

/-- bwdCount reads a weight from the backward maps of a store. -/
def bwdCount (s : JsonStorage) (d : Str) (k t : Tok) : Int :=
  countIn (s.backward.getD []) d k t

/-- splitting around a character absent from both left parts is unique. -/
theorem noc_split (c : Char) :
    ∀ (x y a b : Str), c ∉ x → c ∉ y → x ++ c :: a = y ++ c :: b → x = y ∧ a = b := by
  intro x
  induction x with
  | nil =>
      intro y a b hx hy h
      cases y with
      | nil => simpa using h
      | cons yh yt =>
          simp only [List.nil_append, List.cons_append, List.cons.injEq] at h
          exact absurd (h.1 ▸ List.mem_cons_self yh yt) hy
  | cons xh xt ih =>
      intro y a b hx hy h
      cases y with
      | nil =>
          simp only [List.nil_append, List.cons_append, List.cons.injEq] at h
          exact absurd (h.1 ▸ List.mem_cons_self xh xt) hx
      | cons yh yt =>
          simp only [List.cons_append, List.cons.injEq] at h
          obtain ⟨h1, h2⟩ := h
          have hx' : c ∉ xt := fun hc => hx (List.mem_cons_of_mem _ hc)
          have hy' : c ∉ yt := fun hc => hy (List.mem_cons_of_mem _ hc)
          obtain ⟨e1, e2⟩ := ih yt a b hx' hy' h2
          exact ⟨by rw [h1, e1], e2⟩

/-- join_state with a one-character separator is injective on nonempty
sequences of separator-free tokens. -/
theorem join_inj (c : Char) :
    ∀ (l1 l2 : List Str), l1 ≠ [] → l2 ≠ [] →
      (∀ t ∈ l1, c ∉ t) → (∀ t ∈ l2, c ∉ t) →
      join_state [c] l1 = join_state [c] l2 → l1 = l2 := by
  intro l1
  induction l1 with
  | nil => intro l2 h1 _ _ _ _; exact absurd rfl h1
  | cons t1 ts1 ih =>
      intro l2 _ h2 hf1 hf2 hj
      cases l2 with
      | nil => exact absurd rfl h2
      | cons t2 ts2 =>
          cases ts1 with
          | nil =>
              cases ts2 with
              | nil =>
                  simp only [join_state] at hj
                  rw [hj]
              | cons u2 us2 =>
                  exfalso
                  apply hf1 t1 (List.mem_cons_self _ _)
                  have hj' : t1 = t2 ++ [c] ++ join_state [c] (u2 :: us2) := hj
                  rw [hj']
                  simp
          | cons u1 us1 =>
              cases ts2 with
              | nil =>
                  exfalso
                  apply hf2 t2 (List.mem_cons_self _ _)
                  have hj' : t1 ++ [c] ++ join_state [c] (u1 :: us1) = t2 := hj
                  rw [← hj']
                  simp
              | cons u2 us2 =>
                  rw [join_state_cons_cons, join_state_cons_cons] at hj
                  have hj' : t1 ++ c :: join_state [c] (u1 :: us1)
                      = t2 ++ c :: join_state [c] (u2 :: us2) := by
                    simpa [List.append_assoc] using hj
                  have hx : c ∉ t1 := hf1 t1 (List.mem_cons_self _ _)
                  have hy : c ∉ t2 := hf2 t2 (List.mem_cons_self _ _)
                  obtain ⟨e1, e2⟩ := noc_split c t1 t2 _ _ hx hy hj'
                  have e3 := ih (u2 :: us2) (by simp) (by simp)
                    (fun x hx2 => hf1 x (List.mem_cons_of_mem _ hx2))
                    (fun x hx2 => hf2 x (List.mem_cons_of_mem _ hx2)) e2
                  rw [e1, e3]

/-- the lazily-created dataset is the one stored under its key. -/
theorem dgc_fst_lookup (data : Data) (key : Str) :
    dlookup (do_get_dataset_create data key).1 key
      = some (do_get_dataset_create data key).2 := by
  unfold do_get_dataset_create
  cases h : dlookup data key with
  | some v => simp [h]
  | none => simp [h, dlookup_dinsert]

/-- lazily creating a dataset changes no recorded weight. -/
theorem countIn_create (data : Data) (key : Str) (d : Str) (k t : Tok) :
    countIn (do_get_dataset_create data key).1 d k t = countIn data d k t := by
  unfold do_get_dataset_create
  cases h : dlookup data key with
  | some v => simp
  | none =>
      unfold countIn
      rw [dlookup_dinsert]
      by_cases hd : key = d
      · subst hd
        simp [h, dsCount, dlookup]
      · simp [hd]

/-- one add_link increments exactly the weight of its own key and token. -/
theorem dsCount_add (ds : DsMap) (sk tk k t : Tok) :
    dsCount (add_link ds sk tk 1) k t
      = dsCount ds k t + (if k = sk ∧ t = tk then 1 else 0) := by
  unfold add_link dsCount
  rw [dlookup_dinsert]
  by_cases hk : sk = k
  · subst hk
    rw [if_pos rfl]
    simp only [Option.getD_some]
    rw [dlookup_dinsert]
    by_cases ht : tk = t
    · subst ht
      rw [if_pos rfl]
      simp
    · have ht2 : ¬ (t = tk) := fun hh => ht hh.symm
      rw [if_neg ht]
      simp [ht2]
  · have hk2 : ¬ (k = sk) := fun hh => hk hh.symm
    rw [if_neg hk]
    simp [hk2]

/-- updating one dataset reads back as expected from the whole mapping. -/
theorem countIn_dinsert_ds (data : Data) (dk : Str) (dsv : DsMap)
    (d : Str) (k t : Tok) :
    countIn (dinsert data dk dsv) d k t
      = if d = dk then dsCount dsv k t else countIn data d k t := by
  unfold countIn
  rw [dlookup_dinsert]
  by_cases hd : dk = d
  · subst hd
    simp
  · have hd2 : ¬ (d = dk) := fun hh => hd hh.symm
    simp [hd, hd2]

/-- the combined create-then-add mutation of one add_links iteration
increments exactly one weight by one. -/
theorem countIn_step (data : Data) (key : Str) (sk tk : Tok)
    (d : Str) (k t : Tok) :
    countIn (dinsert (do_get_dataset_create data key).1 key
        (add_link (do_get_dataset_create data key).2 sk tk 1)) d k t
      = countIn data d k t + (if d = key ∧ k = sk ∧ t = tk then 1 else 0) := by
  rw [countIn_dinsert_ds]
  by_cases hd : d = key
  · subst hd
    rw [if_pos rfl, dsCount_add]
    have h1 : dsCount (do_get_dataset_create data d).2 k t
        = countIn (do_get_dataset_create data d).1 d k t := by
      unfold countIn
      rw [dgc_fst_lookup]
      simp
    rw [h1, countIn_create]
    simp
  · rw [if_neg hd]
    simp [hd, countIn_create]

/-- add_links_step on a null-target triple with backward data present:
only the forward link is added, after both datasets are ensured. -/
theorem step_none_eq (s : JsonStorage) (pre : Str) (dn : Str) (src : List Str)
    (b : Data) (hb : s.backward = some b) :
    (add_links_step s pre (dn, src, none)).1
      = { s with
          nodes := dinsert (do_get_dataset_create s.nodes (pre ++ dn)).1 (pre ++ dn)
            (add_link (do_get_dataset_create s.nodes (pre ++ dn)).2
              (some (join_state (sepOf s) src)) none 1),
          backward := some (do_get_dataset_create b (pre ++ dn)).1 } := by
  unfold add_links_step
  simp [hb]

/-- add_links_step on a non-null-target triple with nonempty context and
backward data present: the backward link is added under the reverse key —
context tail plus target, keyed by the context head — and the forward link
under the full context key. -/
theorem step_some_eq (s : JsonStorage) (pre : Str) (dn : Str) (h2 : Str)
    (tl : List Str) (u : Str) (b : Data) (hb : s.backward = some b) :
    (add_links_step s pre (dn, h2 :: tl, some u)).1
      = { s with
          nodes := dinsert (do_get_dataset_create s.nodes (pre ++ dn)).1 (pre ++ dn)
            (add_link (do_get_dataset_create s.nodes (pre ++ dn)).2
              (some (join_state (sepOf s) (h2 :: tl))) (some u) 1),
          backward := some (dinsert (do_get_dataset_create b (pre ++ dn)).1 (pre ++ dn)
            (add_link (do_get_dataset_create b (pre ++ dn)).2
              (some (join_state (sepOf s) (tl ++ [u]))) (some h2) 1)) } := by
  unfold add_links_step
  simp [hb]

/-- add_links_step on a non-null-target triple with empty context and
backward data present stops with StopIteration after ensuring the datasets
but before recording any link. -/
theorem step_empty_eq (s : JsonStorage) (pre : Str) (dn : Str) (u : Str)
    (b : Data) (hb : s.backward = some b) :
    add_links_step s pre (dn, [], some u)
      = ({ s with
            nodes := (do_get_dataset_create s.nodes (pre ++ dn)).1,
            backward := some (do_get_dataset_create b (pre ++ dn)).1 },
         some PyErr.stopIteration) := by
  unfold add_links_step
  simp [hb]

/-- symInv is the backward-symmetry invariant of C3 for a one-character
separator: every forward weight at a separator-free context and target
equals the backward weight at the corresponding reverse key and the
context's first token. -/
def symInv (c : Char) (s : JsonStorage) : Prop :=
  ∀ (d : Str) (h : Str) (tl : List Str) (t : Str),
    (∀ tok ∈ h :: tl, c ∉ tok) → c ∉ t →
    fwdCount s d (some (join_state [c] (h :: tl))) (some t)
      = bwdCount s d (some (join_state [c] (tl ++ [t]))) (some h)

/-- a forward increment fires exactly when the matching backward increment
fires, for separator-free contexts and targets. -/
theorem delta_iff (c : Char) (h : Str) (tl : List Str) (t : Str)
    (h2 : Str) (tl2 : List Str) (u : Str)
    (hf1 : ∀ tok ∈ h :: tl, c ∉ tok) (ht : c ∉ t)
    (hf2 : ∀ tok ∈ h2 :: tl2, c ∉ tok) (hu : c ∉ u) :
    (join_state [c] (h :: tl) = join_state [c] (h2 :: tl2) ∧ t = u)
      ↔ (join_state [c] (tl ++ [t]) = join_state [c] (tl2 ++ [u]) ∧ h = h2) := by
  constructor
  · rintro ⟨hj, hT⟩
    have e := join_inj c (h :: tl) (h2 :: tl2) (by simp) (by simp) hf1 hf2 hj
    obtain ⟨e1, e2⟩ := List.cons.inj e
    subst hT
    rw [e1, e2]
    exact ⟨rfl, rfl⟩
  · rintro ⟨hj, hH⟩
    have hfa : ∀ x ∈ tl ++ [t], c ∉ x := by
      intro x hx
      rcases List.mem_append.mp hx with hx | hx
      · exact hf1 x (List.mem_cons_of_mem _ hx)
      · simp only [List.mem_singleton] at hx
        subst hx
        exact ht
    have hfb : ∀ x ∈ tl2 ++ [u], c ∉ x := by
      intro x hx
      rcases List.mem_append.mp hx with hx | hx
      · exact hf2 x (List.mem_cons_of_mem _ hx)
      · simp only [List.mem_singleton] at hx
        subst hx
        exact hu
    have e := join_inj c (tl ++ [t]) (tl2 ++ [u]) (by simp) (by simp) hfa hfb hj
    obtain ⟨e1, e2⟩ := List.append_inj' e rfl
    have e3 : t = u := by simpa using e2
    subst e3
    rw [hH, e1]
    exact ⟨rfl, rfl⟩

/-- one add_links iteration keeps the configured separator. -/
theorem sepOf_step (s : JsonStorage) (pre : Str) (t : Triple) :
    sepOf (add_links_step s pre t).1 = sepOf s := by
  unfold sepOf
  rw [step_settings]

/-- one add_links iteration on a separator-free triple preserves the
backward-symmetry invariant: a null target adds only a null-token forward
entry outside the invariant, an empty context with a non-null target stops
with StopIteration before recording any weight, and a nonempty context with
a non-null target fires the matched pair of increments. -/
theorem symInv_step (c : Char) (s : JsonStorage) (pre : Str) (tr : Triple)
    (hsep : sepOf s = [c]) (b : Data) (hb : s.backward = some b)
    (hcf : ∀ tok ∈ tr.2.1, c ∉ tok)
    (htf : ∀ u, tr.2.2 = some u → c ∉ u)
    (hinv : symInv c s) : symInv c (add_links_step s pre tr).1 := by
  rcases tr with ⟨dn, src, dst⟩
  simp only at hcf htf
  cases dst with
  | none =>
      rw [step_none_eq s pre dn src b hb]
      intro d h tl t hfa ht
      have base := hinv d h tl t hfa ht
      unfold fwdCount bwdCount at base ⊢
      rw [hb] at base
      simp only [Option.getD_some] at base ⊢
      rw [countIn_step, countIn_create]
      simpa using base
  | some u =>
      cases src with
      | nil =>
          have h1 : (add_links_step s pre (dn, [], some u)).1
              = { s with
                  nodes := (do_get_dataset_create s.nodes (pre ++ dn)).1,
                  backward := some (do_get_dataset_create b (pre ++ dn)).1 } := by
            rw [step_empty_eq s pre dn u b hb]
          rw [h1]
          intro d h tl t hfa ht
          have base := hinv d h tl t hfa ht
          unfold fwdCount bwdCount at base ⊢
          rw [hb] at base
          simp only [Option.getD_some] at base ⊢
          rw [countIn_create, countIn_create]
          exact base
      | cons h2 tl2 =>
          rw [step_some_eq s pre dn h2 tl2 u b hb]
          intro d h tl t hfa ht
          have base := hinv d h tl t hfa ht
          unfold fwdCount bwdCount at base ⊢
          rw [hb] at base
          simp only [Option.getD_some] at base ⊢
          rw [countIn_step, countIn_step, base]
          congr 1
          rw [hsep]
          have hu : c ∉ u := htf u rfl
          have hiff := delta_iff c h tl t h2 tl2 u hfa ht hcf hu
          apply if_congr ?_ rfl rfl
          constructor
          · rintro ⟨e0, e1, e2⟩
            obtain ⟨f1, f2⟩ := hiff.mp ⟨Option.some.inj e1, Option.some.inj e2⟩
            exact ⟨e0, by rw [f1], by rw [f2]⟩
          · rintro ⟨e0, e1, e2⟩
            obtain ⟨f1, f2⟩ := hiff.mpr ⟨Option.some.inj e1, Option.some.inj e2⟩
            exact ⟨e0, by rw [f1], by rw [f2]⟩

/-- running add_links over separator-free triples preserves the
backward-symmetry invariant. -/
theorem symInv_run (c : Char) (pre : Str) (ts : List Triple) :
    ∀ s : JsonStorage, sepOf s = [c] → s.backward.isSome = true →
      (∀ l ∈ ts, (∀ tok ∈ l.2.1, c ∉ tok)
        ∧ (∀ u, l.2.2 = some u → c ∉ u)) →
      symInv c s → symInv c (add_links s pre (ts.map Item.triple)).1 := by
  induction ts with
  | nil => intro s _ _ _ hinv; exact hinv
  | cons tr rest ih =>
      intro s hsep hbs hts hinv
      obtain ⟨b, hb⟩ := Option.isSome_iff_exists.mp hbs
      have h1 := hts tr (List.mem_cons_self _ _)
      have hstep := symInv_step c s pre tr hsep b hb h1.1 h1.2 hinv
      simp only [List.map_cons, add_links]
      cases he : (add_links_step s pre tr).2 with
      | some e =>
          dsimp only
          exact hstep
      | none =>
          dsimp only
          apply ih
          · rw [sepOf_step]; exact hsep
          · rw [step_backward_isSome]; exact hbs
          · exact fun l hl => hts l (List.mem_cons_of_mem _ hl)
          · exact hstep

/-- the empty store with backward support satisfies the invariant. -/
theorem symInv_base (c : Char) (sv : SettingsV) :
    symInv c (mkJsonStorage none BwArg.noneArg (some sv)) := by
  intro d h tl t _ _
  unfold fwdCount bwdCount countIn dsCount mkJsonStorage
  cases hf : sv.backwardFlag <;>
    simp [dlookup, settingsBackwardFlag, hf]

/-- C3, amended: on a store built empty with backward support enabled and a
one-character separator, after any add_links batch whose context tokens and
targets do not contain the separator, the forward weight recorded for a
context and a non-null target equals the backward weight recorded under the
reverse key (context tail plus target) for the context's first token — in
both directions, since the equation covers every separator-free context and
target, entries absent on either side reading as weight 0. -/
theorem claim_C3 (c : Char) (sv : SettingsV) (pre : Str) (ts : List Triple)
    (hsep : sv.separator = [c]) (hflag : sv.backwardFlag = true)
    (hts : ∀ l ∈ ts, (∀ tok ∈ l.2.1, c ∉ tok)
      ∧ (∀ u, l.2.2 = some u → c ∉ u))
    (d : Str) (h : Str) (tl : List Str) (t : Str)
    (hctx : ∀ tok ∈ h :: tl, c ∉ tok) (ht : c ∉ t) :
    fwdCount (add_links_ok (mkJsonStorage none BwArg.noneArg (some sv)) pre ts) d
        (some (join_state [c] (h :: tl))) (some t)
      = bwdCount (add_links_ok (mkJsonStorage none BwArg.noneArg (some sv)) pre ts) d
          (some (join_state [c] (tl ++ [t]))) (some h) := by
  apply symInv_run c pre ts (mkJsonStorage none BwArg.noneArg (some sv)) ?_ ?_ hts
    (symInv_base c sv) d h tl t hctx ht
  · unfold sepOf mkJsonStorage
    simp [hsep]
  · unfold mkJsonStorage
    simp [settingsBackwardFlag, hflag]

/-- aaS is a backward-enabled store with the two-character separator "aa"
fed two links whose tokens are all free of that separator. -/
def aaS : JsonStorage :=
  add_links_ok
    (mkJsonStorage none BwArg.noneArg (some { backwardFlag := true, separator := ['a', 'a'] }))
    []
    [(['d'], [['a'], [], ['a']], some ['b']), (['d'], [[], ['a'], ['a']], some ['b'])]

/-- C3, counterexample: with the separator "aa", whose text no token
contains, two distinct contexts share one forward key, so the forward entry
carries weight 2 while the backward entry at the claimed reverse key of the
first context carries weight 1 — the claimed correspondence fails for a
multi-character separator. -/
theorem claim_C3_counterexample :
    (hasSub ['a', 'a'] ['a'] = false ∧ hasSub ['a', 'a'] [] = false
      ∧ hasSub ['a', 'a'] ['b'] = false ∧ hasSub ['a', 'a'] ['d'] = false)
    ∧ fwdCount aaS ['d'] (some (join_state ['a', 'a'] [['a'], [], ['a']])) (some ['b']) = 2
    ∧ bwdCount aaS ['d'] (some (join_state ['a', 'a'] ([[], ['a']] ++ [['b']]))) (some ['a']) = 1
    ∧ bwdCount aaS ['d'] (some (join_state ['a', 'a'] ([['a'], ['a']] ++ [['b']]))) (some []) = 1 := by
  exact ⟨by decide, by decide, by decide, by decide⟩

/-- C3, witness: the amended statement instantiated at a store with the
one-character scenario separator and one backward-enabled link. -/
theorem claim_C3_witness :
    fwdCount (add_links_ok (mkJsonStorage none BwArg.noneArg
        (some { backwardFlag := true, separator := [sepC] })) []
        [(['d'], [['a']], some ['b'])]) ['d']
        (some (join_state [sepC] (['a'] :: []))) (some ['b'])
      = bwdCount (add_links_ok (mkJsonStorage none BwArg.noneArg
          (some { backwardFlag := true, separator := [sepC] })) []
          [(['d'], [['a']], some ['b'])]) ['d']
          (some (join_state [sepC] ([] ++ [['b']]))) (some ['a']) :=
  claim_C3 sepC { backwardFlag := true, separator := [sepC] } []
    [(['d'], [['a']], some ['b'])] rfl rfl (by decide)
    ['d'] ['a'] [] ['b'] (by decide) (by decide)
